import Mathlib

set_option autoImplicit false

/-!
Sequence Record Index — verification of the FASTQ indexing mechanism.

This development embeds the one engineered mechanism of the repository:
indexed random access to fixed-framing sequence records
(notebook `07_Tips_and_Tricks.ipynb`), together with the unindexed linear
scan that the notebook uses as a baseline.

The unindexed scan is embedded from the notebook's source loop
(`for r in SeqIO.parse(handle, "fastq"): if r.id == query_id: record = r; break`).
The index build and lookup operations themselves live in the third-party
library (`SeqIO.index`), whose code is not part of this repository, so they
are modelled from the specification (§4.1 Build operation / Lookup
operation; §6 input file format).

A file is modelled as its list of lines, each line's on-disk size being its
character count plus one newline byte.  The framing rule is the four-line
stanza of the quality-score format: a sentinel line beginning with the
record sentinel, a sequence line, a separator line beginning with the
separator sentinel, and a quality line.  The record key is the first token
after the sentinel.
-/

namespace SeqIndex

/-- A parsed sequence record: key (identifier), sequence payload and
per-base quality string, as carried by the four-line framing. -/
structure Record where
  id : String
  seq : String
  qual : String
deriving Repr, DecidableEq

/-- Error taxonomy of the index (spec §7): `FormatError` carries the byte
offset at which the framing was violated; `KeyNotFoundError` signals lookup
of an absent key. -/
inductive IndexError where
  | FormatError (offset : Nat) : IndexError
  | KeyNotFoundError : IndexError
deriving Repr, DecidableEq

/-- The index: a read-only mapping from record key to the byte offset of
the record's start inside the source file (spec §3 data model). -/
structure Index where
  entries : List (String × Nat)
deriving Repr, DecidableEq

/-- Whether a line begins with the given sentinel character ("a sentinel
prefix character beginning each record", spec §4.1). -/
def startsWithChar (l : String) (c : Char) : Bool :=
  match l.data with
  | [] => false
  | c2 :: _ => c2 == c

/-- Modelled from the spec: key extraction of the framing rule — "how to
extract the record's unique key (first token after the sentinel)"
(spec §4.1 Build operation). -/
def keyOf (l : String) : String :=
  ⟨(l.data.drop 1).takeWhile (fun c => !(c == ' '))⟩

/-- Modelled from the spec: detection of one record under the four-line
framing rule (spec §6): sentinel line, sequence line, separator line,
quality line.  Returns the parsed record and the remaining lines, or
`none` when the framing is violated (fewer than four lines remain, or a
sentinel/separator line does not carry its sentinel character). -/
def parseOne : List String → Option (Record × List String)
  | l1 :: l2 :: l3 :: l4 :: rest =>
      if startsWithChar l1 '@' && startsWithChar l3 '+' then
        some (⟨keyOf l1, l2, l4⟩, rest)
      else
        none
  | _ => none

/-- On-disk byte size of one line: its characters plus the newline. -/
def lineBytes (l : String) : Nat := l.length + 1

/-- Modelled from the spec: the build scan — "perform a single linear scan
of the file, tracking the current byte offset.  At each detected record
boundary, record `(key, offset)`.  Continue until end-of-file"; a framing
violation aborts the scan with `FormatError` (spec §4.1).  `off` is the
byte offset of the first remaining line. -/
def buildAux : List String → Nat → Except IndexError (List (String × Nat))
  | [], _ => .ok []
  | l1 :: l2 :: l3 :: l4 :: rest, off =>
      if startsWithChar l1 '@' && startsWithChar l3 '+' then
        match buildAux rest (off + lineBytes l1 + lineBytes l2 + lineBytes l3 + lineBytes l4) with
        | .ok tail => .ok ((keyOf l1, off) :: tail)
        | .error e => .error e
      else
        .error (.FormatError off)
  | _, off => .error (.FormatError off)

/-- Modelled from the spec: `build(path, framingRule) -> Index`
(spec §6): a single forward scan from byte offset 0; any framing violation
aborts the whole construction, so no partial index is ever returned. -/
def build (lines : List String) : Except IndexError Index :=
  match buildAux lines 0 with
  | .ok entries => .ok ⟨entries⟩
  | .error e => .error e

/-- First-match association lookup of the stored byte offset for a key. -/
def findOffset : List (String × Nat) → String → Option Nat
  | [], _ => none
  | (k, o) :: rest, key => if k == key then some o else findOffset rest key

/-- Seek to a byte offset inside the file, returning the lines that start
there; `none` when the offset does not fall on a line boundary or lies
beyond the end of the file. -/
def seekLines (lines : List String) (off : Nat) : Option (List String) :=
  if off = 0 then
    some lines
  else
    match lines with
    | [] => none
    | l :: rest =>
        if lineBytes l ≤ off then seekLines rest (off - lineBytes l) else none

/-- Modelled from the spec: `Index.lookup(key) -> Record | KeyNotFoundError`
(spec §4.1 Lookup operation): "look up the stored byte offset for the key;
seek to that offset; parse exactly one record starting there using the
same framing rules used during indexing".  An absent key signals
`KeyNotFoundError`; a failed parse at the stored offset (possible only if
the file changed after indexing) surfaces as `FormatError`. -/
def lookup (lines : List String) (idx : Index) (key : String) : Except IndexError Record :=
  match findOffset idx.entries key with
  | none => .error .KeyNotFoundError
  | some off =>
      match seekLines lines off with
      | none => .error (.FormatError off)
      | some tail =>
          match parseOne tail with
          | none => .error (.FormatError off)
          | some (r, _) => .ok r

/-- The unindexed scan, embedded from the notebook loop
(`07_Tips_and_Tricks.ipynb`): parse records from the start of the file,
compare each record's id with the queried id, stop at the first match
(`break`) or when the record stream ends. -/
def scanLookup : List String → String → Option Record
  | l1 :: l2 :: l3 :: l4 :: rest, qid =>
      if startsWithChar l1 '@' && startsWithChar l3 '+' then
        if keyOf l1 == qid then
          some ⟨keyOf l1, l2, l4⟩
        else
          scanLookup rest qid
      else
        none
  | _, _ => none

/-- Whether the whole file obeys the four-line framing rule. -/
def wellFramed : List String → Bool
  | [] => true
  | l1 :: _ :: l3 :: _ :: rest =>
      startsWithChar l1 '@' && startsWithChar l3 '+' && wellFramed rest
  | _ => false

/-- The stream of records the parser yields, in file order, stopping at
the first framing violation (the point where the parser would raise). -/
def recordsOf : List String → List Record
  | l1 :: l2 :: l3 :: l4 :: rest =>
      if startsWithChar l1 '@' && startsWithChar l3 '+' then
        ⟨keyOf l1, l2, l4⟩ :: recordsOf rest
      else
        []
  | _ => []

/-- The concrete three-record file of the spec's scenario (§8): records
keyed `r1`, `r2`, `r3` at byte offsets 0, 16 and 32. -/
def sampleLines : List String :=
  ["@r1", "ACGT", "+", "IIII",
   "@r2", "GGCC", "+", "JJJJ",
   "@r3", "TTAA", "+", "KKKK"]

/-- The index that `build` produces on `sampleLines`. -/
def sampleIdx : Index :=
  ⟨[("r1", 0), ("r2", 16), ("r3", 32)]⟩

/-- The malformed file of the spec's scenario (§8): the separator line is
missing on the second record (its third line does not begin with the
separator sentinel). -/
def badLines : List String :=
  ["@r1", "ACGT", "+", "IIII",
   "@r2", "GGCC", "IIII", "JJJJ"]

/-- Seeking past one line consumes exactly that line's bytes. -/
theorem seekLines_add (l : String) (rest : List String) (d : Nat) :
    seekLines (l :: rest) (lineBytes l + d) = seekLines rest d := by
  rw [seekLines]
  have h1 : ¬ (lineBytes l + d = 0) := by simp [lineBytes]
  simp only [h1, if_false]
  have h2 : lineBytes l ≤ lineBytes l + d := Nat.le_add_right _ _
  simp [h2]

/-- Central invariant of the build scan: when `buildAux` succeeds starting
at byte offset `base`, then for every key, either the key is absent from
the produced entries and the linear scan finds nothing, or the stored
offset points at a record (reachable by `seekLines` and parseable by
`parseOne`) whose id is the key, and the linear scan returns that same
record. -/
theorem buildAux_spec (lines : List String) (base : Nat) (entries : List (String × Nat))
    (hb : buildAux lines base = .ok entries) (key : String) :
    match findOffset entries key with
    | none => scanLookup lines key = none
    | some o =>
        base ≤ o ∧ ∃ tail r rest, seekLines lines (o - base) = some tail ∧
          parseOne tail = some (r, rest) ∧ r.id = key ∧ scanLookup lines key = some r := by
  induction lines, base using buildAux.induct generalizing entries
  case case1 base =>
    simp only [buildAux, Except.ok.injEq] at hb
    subst hb
    simp [findOffset, scanLookup]
  case case2 l1 l2 l3 l4 rest off hcond tail heq ih =>
    simp only [buildAux, hcond, if_true, heq, Except.ok.injEq] at hb
    subst hb
    cases hk : (keyOf l1 == key) with
    | true =>
        have hkey : keyOf l1 = key := eq_of_beq hk
        simp only [findOffset, hk, if_true]
        refine ⟨Nat.le_refl off, l1 :: l2 :: l3 :: l4 :: rest, ⟨keyOf l1, l2, l4⟩, rest, ?_, ?_, ?_, ?_⟩
        · simp [seekLines]
        · simp [parseOne, hcond]
        · exact hkey
        · simp [scanLookup, hcond, hk]
    | false =>
        simp only [findOffset, hk, if_false]
        have := ih tail heq
        cases hfo : findOffset tail key with
        | none =>
            simp only [hfo] at this
            simp [scanLookup, hcond, hk, this]
        | some o =>
            simp only [hfo] at this
            obtain ⟨hle, tl, r, rs, hseek, hparse, hid, hscan⟩ := this
            refine ⟨?_, tl, r, rs, ?_, hparse, hid, ?_⟩
            · omega
            · have harith : o - off = lineBytes l1 + (lineBytes l2 + (lineBytes l3 + (lineBytes l4 + (o - (off + lineBytes l1 + lineBytes l2 + lineBytes l3 + lineBytes l4))))) := by
                omega
              rw [harith, seekLines_add, seekLines_add, seekLines_add, seekLines_add]
              exact hseek
            · simp [scanLookup, hcond, hk, hscan]
  case case3 l1 l2 l3 l4 rest off hcond e heq ih =>
    simp [buildAux, hcond, heq] at hb
  case case4 l1 l2 l3 l4 rest off hcond =>
    simp [buildAux, hcond] at hb
  case case5 =>
    rename_i t off hne hne4
    match t, hne, hne4 with
    | [], hne, _ => exact absurd rfl hne
    | [a], _, _ => simp [buildAux] at hb
    | [a, b], _, _ => simp [buildAux] at hb
    | [a, b, c], _, _ => simp [buildAux] at hb
    | a :: b :: c :: d :: t2, _, hne4 => exact absurd rfl (hne4 a b c d t2)

/-- The unindexed scan is the first-match search over the record stream. -/
theorem scanLookup_eq_find (lines : List String) (key : String) :
    scanLookup lines key = (recordsOf lines).find? (fun r => r.id == key) := by
  induction lines, key using scanLookup.induct
  case case1 l1 l2 l3 l4 rest qid hcond hk =>
    simp [scanLookup, recordsOf, hcond, hk, List.find?]
  case case2 l1 l2 l3 l4 rest qid hcond hk ih =>
    simp [scanLookup, recordsOf, hcond, hk, List.find?_cons, ih]
  case case3 l1 l2 l3 l4 rest qid hcond =>
    simp [scanLookup, recordsOf, hcond]
  case case4 =>
    rename_i t qid hne4
    match t, hne4 with
    | [], _ => simp [scanLookup, recordsOf]
    | [a], _ => simp [scanLookup, recordsOf]
    | [a, b], _ => simp [scanLookup, recordsOf]
    | [a, b, c], _ => simp [scanLookup, recordsOf]
    | a :: b :: c :: d :: t2, hne4 => exact absurd rfl (hne4 a b c d t2)

/-- A record found by the unindexed scan carries the queried id. -/
theorem scanLookup_id (lines : List String) (key : String) (r : Record)
    (h : scanLookup lines key = some r) : r.id = key := by
  rw [scanLookup_eq_find] at h
  have := List.find?_some h
  simpa using this

/-- On a well-framed file the build scan succeeds. -/
theorem buildAux_eq_ok_of_wellFramed (lines : List String) (base : Nat)
    (hw : wellFramed lines = true) : ∃ entries, buildAux lines base = .ok entries := by
  induction lines, base using buildAux.induct
  case case1 base => exact ⟨[], rfl⟩
  case case2 l1 l2 l3 l4 rest off hcond tail heq ih =>
    exact ⟨(keyOf l1, off) :: tail, by simp [buildAux, hcond, heq]⟩
  case case3 l1 l2 l3 l4 rest off hcond e heq ih =>
    simp only [wellFramed, hcond, Bool.true_and] at hw
    obtain ⟨t, ht⟩ := ih hw
    rw [ht] at heq
    cases heq
  case case4 l1 l2 l3 l4 rest off hcond =>
    simp only [wellFramed, Bool.and_eq_true] at hw
    simp only [Bool.and_eq_true] at hcond
    exact absurd hw.1 hcond
  case case5 =>
    rename_i t off hne hne4
    match t, hne, hne4 with
    | [], hne, _ => exact absurd rfl hne
    | [a], _, _ => simp [wellFramed] at hw
    | [a, b], _, _ => simp [wellFramed] at hw
    | [a, b, c], _, _ => simp [wellFramed] at hw
    | a :: b :: c :: d :: t2, _, hne4 => exact absurd rfl (hne4 a b c d t2)

/-- On a file that violates the framing, the build scan aborts with a
`FormatError` naming some offset. -/
theorem buildAux_formatError_of_not_wellFramed (lines : List String) (base : Nat)
    (hw : wellFramed lines = false) : ∃ off, buildAux lines base = .error (.FormatError off) := by
  induction lines, base using buildAux.induct
  case case1 base => simp [wellFramed] at hw
  case case2 l1 l2 l3 l4 rest off hcond tail heq ih =>
    simp only [wellFramed, hcond, Bool.true_and] at hw
    obtain ⟨o, ho⟩ := ih hw
    rw [ho] at heq
    cases heq
  case case3 l1 l2 l3 l4 rest off hcond e heq ih =>
    simp only [wellFramed, hcond, Bool.true_and] at hw
    obtain ⟨o, ho⟩ := ih hw
    rw [ho] at heq
    cases heq
    exact ⟨o, by simp [buildAux, hcond, ho]⟩
  case case4 l1 l2 l3 l4 rest off hcond =>
    exact ⟨off, by simp [buildAux, hcond]⟩
  case case5 =>
    rename_i t off hne hne4
    match t, hne, hne4 with
    | [], hne, _ => exact absurd rfl hne
    | [a], _, _ => exact ⟨off, by simp [buildAux]⟩
    | [a, b], _, _ => exact ⟨off, by simp [buildAux]⟩
    | [a, b, c], _, _ => exact ⟨off, by simp [buildAux]⟩
    | a :: b :: c :: d :: t2, _, hne4 => exact absurd rfl (hne4 a b c d t2)

/-- Refinement core: after a successful `build`, the indexed lookup gives
exactly the scan's record when the scan finds one, and
`KeyNotFoundError` when it does not. -/
theorem lookup_eq_scan (lines : List String) (idx : Index) (key : String)
    (hb : build lines = .ok idx) :
    lookup lines idx key =
      match scanLookup lines key with
      | some r => .ok r
      | none => .error .KeyNotFoundError := by
  have hba : buildAux lines 0 = .ok idx.entries := by
    unfold build at hb
    cases h : buildAux lines 0 with
    | ok e => rw [h] at hb; cases hb; rfl
    | error e => rw [h] at hb; cases hb
  have hspec := buildAux_spec lines 0 idx.entries hba key
  unfold lookup
  cases hfo : findOffset idx.entries key with
  | none =>
      simp only [hfo] at hspec
      rw [hspec]
  | some o =>
      simp only [hfo] at hspec
      obtain ⟨-, tl, r, rs, hseek, hparse, hid, hscan⟩ := hspec
      rw [Nat.sub_zero] at hseek
      rw [hscan]
      simp only [hseek, hparse]

/-- A first-match search that succeeds splits the list at the found
element, with no earlier match. -/
theorem find_id_first (rs : List Record) (key : String) (r : Record)
    (h : rs.find? (fun r2 => r2.id == key) = some r) :
    ∃ pre post, rs = pre ++ r :: post ∧ ∀ r2 ∈ pre, r2.id ≠ key := by
  induction rs with
  | nil => cases h
  | cons a t ih =>
      rw [List.find?_cons] at h
      cases hk : (a.id == key) with
      | true =>
          rw [hk] at h
          cases h
          exact ⟨[], t, rfl, by simp⟩
      | false =>
          rw [hk] at h
          obtain ⟨pre, post, hsplit, hpre⟩ := ih h
          refine ⟨a :: pre, post, by rw [hsplit]; simp, ?_⟩
          intro r2 hr2
          rcases List.mem_cons.mp hr2 with h2 | h2
          · subst h2
            simpa using hk
          · exact hpre r2 h2

/-- When record ids are pairwise distinct, the first-match search by a
member's id returns exactly that member. -/
theorem find_id_nodup (rs : List Record) (r : Record)
    (hd : (rs.map Record.id).Nodup) (hr : r ∈ rs) :
    rs.find? (fun r2 => r2.id == r.id) = some r := by
  induction rs with
  | nil => cases hr
  | cons a t ih =>
      rw [List.map_cons, List.nodup_cons] at hd
      rw [List.find?_cons]
      rcases List.mem_cons.mp hr with h | h
      · subst h
        simp
      · have hne : a.id ≠ r.id := by
          intro he
          exact hd.1 (he ▸ List.mem_map_of_mem Record.id h)
        have hbeq : (a.id == r.id) = false := by
          simpa using hne
        rw [hbeq]
        exact ih hd.2 h

/-- Claim C1: for every well-formed input file under the fixed framing
rules and every key present in the index, looking up that key after
`build` returns a record whose key equals the queried key — lookup never
aliases one key's record to another. -/
theorem lookup_returns_queried_key (lines : List String) (idx : Index) (key : String)
    (r : Record) (hb : build lines = .ok idx) (hl : lookup lines idx key = .ok r) :
    r.id = key := by
  rw [lookup_eq_scan lines idx key hb] at hl
  cases hscan : scanLookup lines key with
  | none => rw [hscan] at hl; cases hl
  | some r2 =>
      rw [hscan] at hl
      cases hl
      exact scanLookup_id lines key r hscan

/-- Witness for claim C1 on the spec's concrete scenario file. -/
theorem lookup_returns_queried_key_witness :
    (Record.mk "r2" "GGCC" "JJJJ").id = "r2" :=
  lookup_returns_queried_key sampleLines sampleIdx "r2" (Record.mk "r2" "GGCC" "JJJJ") rfl rfl

/-- Claim C2: for every well-formed input file and every key, the indexed
lookup (build then lookup) and the unindexed linear scan from the start of
the file return the same result — the same record when the key is present,
and the same not-found outcome when it is absent. -/
theorem indexed_lookup_refines_scan (lines : List String) (idx : Index) (key : String)
    (hb : build lines = .ok idx) :
    lookup lines idx key =
      match scanLookup lines key with
      | some r => .ok r
      | none => .error .KeyNotFoundError :=
  lookup_eq_scan lines idx key hb

/-- Witness for claim C2 on the spec's concrete scenario file. -/
theorem indexed_lookup_refines_scan_witness :
    lookup sampleLines sampleIdx "r2" =
      match scanLookup sampleLines "r2" with
      | some r => .ok r
      | none => .error .KeyNotFoundError :=
  indexed_lookup_refines_scan sampleLines sampleIdx "r2" rfl

/-- Claim C3: for every key that does not occur in the source file, lookup
on the built index signals `KeyNotFoundError`; it never returns a default
or empty record. -/
theorem lookup_absent_key_not_found (lines : List String) (idx : Index) (key : String)
    (hb : build lines = .ok idx)
    (habs : ∀ r ∈ recordsOf lines, r.id ≠ key) :
    lookup lines idx key = .error .KeyNotFoundError := by
  rw [lookup_eq_scan lines idx key hb, scanLookup_eq_find]
  have hnone : (recordsOf lines).find? (fun r => r.id == key) = none :=
    List.find?_eq_none.mpr (fun x hx => by simpa using habs x hx)
  rw [hnone]

/-- Witness for claim C3: the absent key `r4` of the spec's scenario. -/
theorem lookup_absent_key_not_found_witness :
    lookup sampleLines sampleIdx "r4" = .error .KeyNotFoundError :=
  lookup_absent_key_not_found sampleLines sampleIdx "r4" rfl (by decide)

/-- Claim C4: for every input file that violates the per-record framing at
some offset, `build` signals `FormatError` and aborts — no index is
returned, so no partial index exists and nothing built from that file is
usable afterward. -/
theorem build_malformed_aborts (lines : List String) (hw : wellFramed lines = false) :
    (∃ off, build lines = .error (.FormatError off)) ∧ ∀ idx, build lines ≠ .ok idx := by
  obtain ⟨o, ho⟩ := buildAux_formatError_of_not_wellFramed lines 0 hw
  refine ⟨⟨o, ?_⟩, ?_⟩
  · unfold build
    rw [ho]
  · intro idx hcontra
    unfold build at hcontra
    rw [ho] at hcontra
    cases hcontra

/-- Witness for claim C4: the spec's malformed file whose second record
lacks its separator line. -/
theorem build_malformed_aborts_witness :
    (∃ off, build badLines = .error (.FormatError off)) ∧ ∀ idx, build badLines ≠ .ok idx :=
  build_malformed_aborts badLines rfl

/-- Claim C5: build is idempotent — running `build` twice on the same
unmodified file produces two indexes that answer identically for every
key. -/
theorem build_idempotent_answers (lines : List String) (i1 i2 : Index)
    (h1 : build lines = .ok i1) (h2 : build lines = .ok i2) (key : String) :
    lookup lines i1 key = lookup lines i2 key := by
  rw [h1] at h2
  cases h2
  rfl

/-- Witness for claim C5 on the spec's concrete scenario file. -/
theorem build_idempotent_answers_witness :
    lookup sampleLines sampleIdx "r2" = lookup sampleLines sampleIdx "r2" :=
  build_idempotent_answers sampleLines sampleIdx sampleIdx rfl rfl "r2"

/-- Claim C6: the unindexed scan, for every file and target key, parses
records linearly from the start of the file, compares each record's key to
the target, and stops at the first matching record or at end-of-file: a
found record is a match preceded only by non-matches, and a not-found
signal means no parsed record matches. -/
theorem scan_first_match_or_eof (lines : List String) (key : String) :
    match scanLookup lines key with
    | some r => r.id = key ∧ ∃ pre post, recordsOf lines = pre ++ r :: post ∧ ∀ r2 ∈ pre, r2.id ≠ key
    | none => ∀ r ∈ recordsOf lines, r.id ≠ key := by
  cases hscan : scanLookup lines key with
  | some r =>
      refine ⟨scanLookup_id lines key r hscan, ?_⟩
      rw [scanLookup_eq_find] at hscan
      exact find_id_first _ _ _ hscan
  | none =>
      rw [scanLookup_eq_find] at hscan
      intro r hr he
      have := List.find?_eq_none.mp hscan r hr
      simp [he] at this

/-- Witness for claim C6 on the spec's concrete scenario file. -/
theorem scan_first_match_or_eof_witness :
    match scanLookup sampleLines "r2" with
    | some r => r.id = "r2" ∧ ∃ pre post, recordsOf sampleLines = pre ++ r :: post ∧ ∀ r2 ∈ pre, r2.id ≠ "r2"
    | none => ∀ r ∈ recordsOf sampleLines, r.id ≠ "r2" :=
  scan_first_match_or_eof sampleLines "r2"

/-- Claim C9: the index is complete, not only sound — for every well-formed
input file with distinct record keys and every record the file contains,
after `build` that record's key is present in the index and lookup of that
key returns exactly that record. -/
theorem index_complete_for_distinct_keys (lines : List String) (idx : Index) (r : Record)
    (hb : build lines = .ok idx)
    (hnd : ((recordsOf lines).map Record.id).Nodup)
    (hr : r ∈ recordsOf lines) :
    (∃ o, findOffset idx.entries r.id = some o) ∧ lookup lines idx r.id = .ok r := by
  have hlk : lookup lines idx r.id = .ok r := by
    rw [lookup_eq_scan lines idx r.id hb, scanLookup_eq_find, find_id_nodup _ r hnd hr]
  refine ⟨?_, hlk⟩
  cases hfo : findOffset idx.entries r.id with
  | some o => exact ⟨o, rfl⟩
  | none =>
      unfold lookup at hlk
      rw [hfo] at hlk
      cases hlk

/-- Witness for claim C9: the second record of the spec's scenario file. -/
theorem index_complete_for_distinct_keys_witness :
    (∃ o, findOffset sampleIdx.entries (Record.mk "r2" "GGCC" "JJJJ").id = some o) ∧
      lookup sampleLines sampleIdx (Record.mk "r2" "GGCC" "JJJJ").id = .ok (Record.mk "r2" "GGCC" "JJJJ") :=
  index_complete_for_distinct_keys sampleLines sampleIdx (Record.mk "r2" "GGCC" "JJJJ") rfl
    (by decide) (by decide)

end SeqIndex
